import Mathlib

/-!
# Verification development for `utils/genData.go`

The Go file has two functions.

* `GenerateJson` opens the workbook, and for every sheet scans row 5 (index 4) for
  subgroup labels, building `classes : map[string]map[int]string`.
* `ExcelToJson` turns `classes` into `data : map[string]map[string][][]Data` by calling
  `GetTableData` for each (sheet, column), serialises `data` and writes it to `./data.json`.

Go strings are modelled by Lean `String`s (sequences of code points: the cell texts and
sheet names that `excelize` decodes from the workbook's XML are valid UTF-8); Go `int` map
keys by `Int` (the scanner only ever computes `colIndex+1` with
`0 ≤ colIndex < len(row)`, which cannot overflow a 64-bit `int`). A Go map is modelled by
the list of its key/value entries. Because the order in which `range` visits a Go map is
unspecified, every function that ranges over a map takes the entries in the order in which
they are visited, and the theorems quantify over all such orders.

`HandleError`, `GetTableData` and the type `Data` are defined in other files of the
package: `HandleError` is modelled from the specification, `GetTableData` and the table
type are parameters. Opening and closing the workbook (lines 19-29) and the deferred
`file.Close()` (line 85) are not modelled.
-/

namespace GenData

/-! ## Go standard library: `unicode.IsSpace`, `strings.TrimSpace`, `strings.Trim` -/

/-- Go `unicode.IsSpace`: in Latin-1 the space characters are
`'\t', '\n', '\v', '\f', '\r', ' ', U+0085 (NEL), U+00A0 (NBSP)`; above Latin-1 they are the
code points of the Unicode `White_Space` property. -/
def IsSpace (r : Char) : Bool :=
  let n := r.toNat
  if n ≤ 0xFF then
    n == 0x09 || n == 0x0A || n == 0x0B || n == 0x0C || n == 0x0D || n == 0x20 ||
      n == 0x85 || n == 0xA0
  else
    n == 0x1680 || (0x2000 ≤ n && n ≤ 0x200A) || n == 0x2028 || n == 0x2029 ||
      n == 0x202F || n == 0x205F || n == 0x3000

/-- Go `strings.TrimLeftFunc` on the code points of a string: drop the longest prefix
whose code points all satisfy `f`. -/
def TrimLeftFunc (s : List Char) (f : Char → Bool) : List Char :=
  s.dropWhile f

/-- Go `strings.TrimRightFunc` on the code points of a string: drop the longest suffix
whose code points all satisfy `f`. -/
def TrimRightFunc (s : List Char) (f : Char → Bool) : List Char :=
  (s.reverse.dropWhile f).reverse

/-- Go `strings.TrimFunc`: `TrimRightFunc(TrimLeftFunc(s, f), f)`. -/
def TrimFunc (s : List Char) (f : Char → Bool) : List Char :=
  TrimRightFunc (TrimLeftFunc s f) f

/-- Go `strings.TrimSpace`: remove all leading and trailing white space, as defined by
Unicode (`unicode.IsSpace`). -/
def TrimSpace (s : String) : String :=
  ⟨TrimFunc s.data IsSpace⟩

/-- Go `strings.Trim(s, cutset)`: remove all leading and trailing code points contained
in `cutset`. -/
def Trim (s cutset : String) : String :=
  ⟨TrimFunc s.data (fun r => decide (r ∈ cutset.data))⟩

/-! ## Go maps -/

/-- A Go `map[K]V`, as the list of its entries. -/
abbrev GoMap (K V : Type) := List (K × V)

/-- Go `m[k]` (with the "comma ok" result as an `Option`). -/
def GoMap.index {K V : Type} [DecidableEq K] : GoMap K V → K → Option V
  | [], _ => none
  | (k', v') :: m, k => if k' = k then some v' else GoMap.index m k

/-- Go `m[k] = v`: overwrite the entry of `k` if there is one, add one otherwise. -/
def GoMap.assign {K V : Type} [DecidableEq K] : GoMap K V → K → V → GoMap K V
  | [], k, v => [(k, v)]
  | (k', v') :: m, k, v =>
    if k' = k then (k, v) :: m else (k', v') :: GoMap.assign m k v

/-- The keys of a map. -/
def GoMap.keys {K V : Type} (m : GoMap K V) : List K :=
  m.map Prod.fst

/-- The list `order` is one order in which `for k, v := range m` may visit the entries of
the map `m`: the same entries, in any order. -/
def GoMap.RangeOrder {K V : Type} (m order : GoMap K V) : Prop :=
  order.Perm m

/-! ## `GenerateJson`: the header scanner -/

/-- The filter of `GenerateJson` (lines 55-63): the trimmed cell is kept when it is
non-empty and none of the eight literal header labels. -/
def keepLabel (trimmedValue : String) : Bool :=
  trimmedValue != "" &&
  trimmedValue != "DAY" &&
  trimmedValue != "HOURS" &&
  trimmedValue != "SR NO" &&
  trimmedValue != "SR.NO" &&
  trimmedValue != "TUTORIAL" &&
  trimmedValue != "LECTURE" &&
  trimmedValue != "PRACTICAL" &&
  trimmedValue != "BRANCH"

/-- The loop `for colIndex, cellValue := range rows[4]` of `GenerateJson` (lines 49-67),
started at position `colIndex` with the map `temp` built so far. -/
def scanRowFrom : List String → Nat → GoMap Int String → GoMap Int String
  | [], _, temp => temp
  | cellValue :: rest, colIndex, temp =>
    let trimmedValue := TrimSpace cellValue
    if keepLabel trimmedValue then
      scanRowFrom rest (colIndex + 1) (GoMap.assign temp ((colIndex : Int) + 1) trimmedValue)
    else
      scanRowFrom rest (colIndex + 1) temp

/-- The body of the sheet loop of `GenerateJson` after `GetRows` (lines 40, 47-68):
`temp` is empty unless the sheet has a row with index 4, which is then scanned. -/
def scanSheet (rows : List (List String)) : GoMap Int String :=
  if 4 < rows.length then scanRowFrom (rows.getD 4 []) 0 [] else []

/-- A Go `error` value (its message). -/
abbrev GoError := String

/-- Modelled from the spec: `HandleError`, the fatal-error reporter, is defined outside
`genData.go`. Given an error value it either does nothing (no error) or terminates the
process immediately; termination is the `Except.error` result, after which nothing runs. -/
def HandleError (err : Option GoError) : Except GoError Unit :=
  match err with
  | none => Except.ok ()
  | some e => Except.error e

/-- The part of an open `*excelize.File` that `GenerateJson` reads: `GetSheetList()` and
`GetRows(sheetName)`, the latter with its two results `(rows, err)`. -/
structure Workbook where
  GetSheetList : List String
  GetRows : String → List (List String) × Option GoError

/-- The loop `for _, sheetName := range sheets` of `GenerateJson` (lines 38-71), over the
sheets still to visit, with the map `classes` built so far. -/
def scanSheets (f : Workbook) :
    List String → GoMap String (GoMap Int String) →
      Except GoError (GoMap String (GoMap Int String))
  | [], classes => Except.ok classes
  | sheetName :: rest, classes =>
    match HandleError (f.GetRows sheetName).2 with
    | Except.error e => Except.error e
    | Except.ok _ =>
      scanSheets f rest (GoMap.assign classes sheetName (scanSheet (f.GetRows sheetName).1))

/-- The map `classes` that `GenerateJson` passes to `ExcelToJson` (line 74), or the error
the run was terminated with. -/
def GenerateJson_classes (f : Workbook) : Except GoError (GoMap String (GoMap Int String)) :=
  scanSheets f f.GetSheetList []

/-! ## `ExcelToJson`: the table extractor and serialiser -/

/-- The loop `for colIndex, subgroupName := range subgroupsInSheet` of `ExcelToJson`
(lines 96-102), over the entries in the order they are visited, with the map
`tempSheetData` built so far. `Table` is `[][]Data`, and `GetTableData` the row-extraction
function of `data.go`, with the workbook argument fixed. -/
def subgroupLoop {Table : Type} (GetTableData : String → Int → Table) (sheetName : String) :
    GoMap Int String → GoMap String Table → GoMap String Table
  | [], tempSheetData => tempSheetData
  | (colIndex, subgroupName) :: rest, tempSheetData =>
    subgroupLoop GetTableData sheetName rest
      (GoMap.assign tempSheetData (Trim subgroupName " ") (GetTableData sheetName colIndex))

/-- The loop `for sheetName, subgroupsInSheet := range classes` of `ExcelToJson`
(lines 92-105), over the entries in the order they are visited, with the map `data` built
so far. -/
def sheetLoop {Table : Type} (GetTableData : String → Int → Table) :
    GoMap String (GoMap Int String) → GoMap String (GoMap String Table) →
      GoMap String (GoMap String Table)
  | [], data => data
  | (sheetName, subgroupsInSheet) :: rest, data =>
    sheetLoop GetTableData rest
      (GoMap.assign data (Trim sheetName " ")
        (subgroupLoop GetTableData sheetName subgroupsInSheet []))

/-- The Aggregate Document `data` of `ExcelToJson` when line 108 is reached, for `classes`
given by its entries in the order the two `range` loops visit them. -/
def ExcelToJson_data {Table : Type} (GetTableData : String → Int → Table)
    (classes : GoMap String (GoMap Int String)) : GoMap String (GoMap String Table) :=
  sheetLoop GetTableData classes []

/-- The list `order` is one order in which the nested loops of `ExcelToJson` may visit the
map `classes`: the sheets in any order, and the columns of each sheet in any order. -/
def NestedRangeOrder (classes order : GoMap String (GoMap Int String)) : Prop :=
  ∃ mid : GoMap String (GoMap Int String), GoMap.RangeOrder classes mid ∧
    List.Forall₂ (fun o c => o.1 = c.1 ∧ GoMap.RangeOrder c.2 o.2) order mid

/-- The bytes of a file. -/
abbrev Bytes := List Nat

/-- The outside world of `ExcelToJson`: the error result of `os.Create("./data.json")`, the
function `json.MarshalIndent(data, "", " ")` (bytes, or an error), and the error result of
`file.Write(dj)`. -/
structure Outside (Table : Type) where
  Create : Option GoError
  MarshalIndent : GoMap String (GoMap String Table) → Except GoError Bytes
  Write : Bytes → Option GoError

/-- What a run of `ExcelToJson` did: the arguments of the calls of `file.Write`, in order,
and the error with which `HandleError` terminated the process, if it did. -/
structure Run where
  written : List Bytes
  fatal : Option GoError
deriving DecidableEq

/-- The function `ExcelToJson` (lines 79-113). The error result of `json.MarshalIndent` is
assigned to the blank identifier, and `dj` is `nil` when it fails. -/
def ExcelToJson {Table : Type} (os : Outside Table) (GetTableData : String → Int → Table)
    (classes : GoMap String (GoMap Int String)) : Run :=
  match HandleError os.Create with
  | Except.error e => { written := [], fatal := some e }
  | Except.ok _ =>
    let data := ExcelToJson_data GetTableData classes
    let dj : Bytes :=
      match os.MarshalIndent data with
      | Except.ok b => b
      | Except.error _ => []
    match HandleError (os.Write dj) with
    | Except.error e => { written := [dj], fatal := some e }
    | Except.ok _ => { written := [dj], fatal := none }

/-! ## Notions used in the statements -/

/-- The eight header labels that `GenerateJson` excludes (lines 56-63). -/
def excludedLabels : List String :=
  ["DAY", "HOURS", "SR NO", "SR.NO", "TUTORIAL", "LECTURE", "PRACTICAL", "BRANCH"]

/-- The string has no leading and no trailing code point satisfying `f`. -/
def Trimmed (f : Char → Bool) (s : String) : Prop :=
  (∀ c ∈ s.data.head?, f c = false) ∧ (∀ c ∈ s.data.getLast?, f c = false)

instance (f : Char → Bool) (s : String) : Decidable (Trimmed f s) :=
  inferInstanceAs
    (Decidable ((∀ c ∈ s.data.head?, f c = false) ∧ (∀ c ∈ s.data.getLast?, f c = false)))

/-- The (sheet, column) pairs of `classes` whose label, trimmed as in line 101, is `key`. -/
def producers (classes : GoMap String (GoMap Int String)) (key : String) :
    List (String × Int) :=
  classes.flatMap fun e =>
    (e.2.filter fun p => decide (Trim p.2 " " = key)).map fun p => (e.1, p.1)

/-- All subgroup labels of `classes`, one for every (sheet, column) pair. -/
def allLabels (classes : GoMap String (GoMap Int String)) : List String :=
  classes.flatMap fun e => e.2.map Prod.snd

/-- Two Aggregate Documents are the same mapping sheet -> subgroup -> table. -/
def SameDocument {Table : Type} (d₁ d₂ : GoMap String (GoMap String Table)) : Prop :=
  ∀ s : String,
    ((GoMap.index d₁ s).isSome = (GoMap.index d₂ s).isSome) ∧
    ∀ l : String, (GoMap.index d₁ s).bind (fun m => GoMap.index m l) =
      (GoMap.index d₂ s).bind (fun m => GoMap.index m l)

/-! ## Example inputs -/

/-- The workbook of the example scenario: one sheet `"2ND YEAR B "` whose row 5 is
`["SR NO", "DAY", "A1 ", "", "BRANCH", "B2"]`. -/
def exampleWorkbook : Workbook where
  GetSheetList := ["2ND YEAR B "]
  GetRows := fun _ =>
    ([["r1"], ["r2"], ["r3"], ["r4"], ["SR NO", "DAY", "A1 ", "", "BRANCH", "B2"]], none)

/-- A workbook whose only sheet has the lower-case header `"day"` next to `"DAY"`. -/
def dayWorkbook : Workbook where
  GetSheetList := ["S"]
  GetRows := fun _ => ([[], [], [], [], ["DAY", "day", " HOURS ", "  "]], none)

/-- A workbook with a sheet without rows and a sheet with four rows. -/
def shortWorkbook : Workbook where
  GetSheetList := ["EMPTY", "FOUR ROWS"]
  GetRows := fun s =>
    if s = "EMPTY" then ([], none) else ([["a"], ["b"], ["c"], ["A1", "B2"]], none)

/-- A workbook with a sheet whose name ends in a tab and a sheet whose name ends in a
no-break space (U+00A0), both without rows. -/
def tabWorkbook : Workbook where
  GetSheetList := ["A\t", "B\u00a0"]
  GetRows := fun _ => ([], none)

/-- A workbook whose only sheet has the same label in two columns of row 5. -/
def twinWorkbook : Workbook where
  GetSheetList := ["S"]
  GetRows := fun _ => ([[], [], [], [], ["A1", "A1"]], none)

/-- A row-extraction function whose table tells the column it was asked for. -/
def columnTable : String → Int → List (List Int) :=
  fun _ colIndex => [[colIndex]]

/-- An outside world in which the file is created, serialisation fails and the write
succeeds. -/
def failingMarshal : Outside (List (List Int)) where
  Create := none
  MarshalIndent := fun _ => Except.error "json: unsupported value"
  Write := fun _ => none

/-- An outside world in which the file cannot be created. -/
def failingCreate : Outside (List (List Int)) where
  Create := some "open ./data.json: permission denied"
  MarshalIndent := fun _ => Except.ok [123, 125]
  Write := fun _ => none

/-- Proof device: assigning a list of entries to a map, first entry first. Every loop of
the program is of this form. -/
def assignAll {K V : Type} [DecidableEq K] : List (K × V) → GoMap K V → GoMap K V
  | [], m => m
  | (k, v) :: es, m => assignAll es (GoMap.assign m k v)

/-! ## Trimming -/

theorem trimFunc_head (f : Char → Bool) (l : List Char) :
    ∀ c ∈ (TrimFunc l f).head?, f c = false := by
  intro c hc
  have hpre : (TrimFunc l f) <+: l.dropWhile f := by
    unfold TrimFunc TrimRightFunc TrimLeftFunc
    exact List.rdropWhile_prefix f (l.dropWhile f)
  obtain ⟨t, ht⟩ := hpre
  have h1 := List.head?_dropWhile_not f l
  rw [← ht] at h1
  cases hT : TrimFunc l f with
  | nil => rw [hT] at hc; simp at hc
  | cons a r =>
    rw [hT] at hc h1
    simp at hc h1
    subst hc
    exact h1

theorem trimFunc_last (f : Char → Bool) (l : List Char) :
    ∀ c ∈ (TrimFunc l f).getLast?, f c = false := by
  intro c hc
  have hrd : TrimFunc l f = (l.dropWhile f).rdropWhile f := rfl
  by_cases hne : (l.dropWhile f).rdropWhile f = []
  · rw [hrd, hne] at hc; simp at hc
  · have h := List.rdropWhile_last_not f (l.dropWhile f) hne
    rw [hrd, List.getLast?_eq_getLast _ hne] at hc
    simp at hc
    subst hc
    simpa using h

theorem trimFunc_eq_self (g : Char → Bool) (l : List Char)
    (hh : ∀ c ∈ l.head?, g c = false) (hl : ∀ c ∈ l.getLast?, g c = false) :
    TrimFunc l g = l := by
  have h1 : l.dropWhile g = l := by
    cases l with
    | nil => rfl
    | cons a r =>
      have := hh a (by simp)
      simp [List.dropWhile, this]
  have h2 : l.rdropWhile g = l := by
    rw [List.rdropWhile_eq_self_iff]
    intro hne
    have := hl (l.getLast hne) (by simp [List.getLast?_eq_getLast _ hne])
    simp [this]
  show (l.dropWhile g).rdropWhile g = l
  rw [h1, h2]

theorem isSpace_of_mem_space (c : Char) (h : c ∈ " ".data) : IsSpace c = true := by
  have : c = ' ' := by simpa using h
  subst this
  decide

theorem trimSpace_trimmed (s : String) : Trimmed IsSpace (TrimSpace s) :=
  ⟨trimFunc_head IsSpace s.data, trimFunc_last IsSpace s.data⟩

theorem trim_trimmed (s cutset : String) :
    Trimmed (fun r => decide (r ∈ cutset.data)) (Trim s cutset) :=
  ⟨trimFunc_head _ s.data, trimFunc_last _ s.data⟩

theorem trim_space_of_trimmed (s : String) (h : Trimmed IsSpace s) : Trim s " " = s := by
  have : TrimFunc s.data (fun r => decide (r ∈ " ".data)) = s.data := by
    apply trimFunc_eq_self
    · intro c hc
      have := h.1 c hc
      by_contra hcon
      have hm : c ∈ " ".data := by simpa using hcon
      rw [isSpace_of_mem_space c hm] at this
      exact absurd this (by decide)
    · intro c hc
      have := h.2 c hc
      by_contra hcon
      have hm : c ∈ " ".data := by simpa using hcon
      rw [isSpace_of_mem_space c hm] at this
      exact absurd this (by decide)
  unfold Trim
  rw [this]

theorem trim_trimSpace (s : String) : Trim (TrimSpace s) " " = TrimSpace s :=
  trim_space_of_trimmed _ (trimSpace_trimmed s)

theorem keepLabel_iff (t : String) :
    keepLabel t = true ↔ t ≠ "" ∧ t ∉ excludedLabels := by
  simp [keepLabel, excludedLabels, and_assoc]

/-! ## Maps -/

section Maps

variable {K V : Type} [DecidableEq K]

theorem index_assign (m : GoMap K V) (k k' : K) (v : V) :
    GoMap.index (GoMap.assign m k v) k' = if k = k' then some v else GoMap.index m k' := by
  induction m with
  | nil => simp [GoMap.assign, GoMap.index]
  | cons e m ih =>
    obtain ⟨a, b⟩ := e
    by_cases h : a = k
    · subst h
      by_cases h2 : a = k' <;> simp [GoMap.assign, GoMap.index, h2]
    · by_cases h2 : a = k'
      · subst h2
        simp [GoMap.assign, GoMap.index, h, Ne.symm h]
      · simp [GoMap.assign, GoMap.index, h, h2, ih]

theorem mem_keys_assign (m : GoMap K V) (k k' : K) (v : V) :
    k' ∈ GoMap.keys (GoMap.assign m k v) ↔ k' = k ∨ k' ∈ GoMap.keys m := by
  induction m with
  | nil => simp [GoMap.assign, GoMap.keys]
  | cons e m ih =>
    obtain ⟨a, b⟩ := e
    by_cases h : a = k
    · subst h
      simp [GoMap.assign, GoMap.keys]
    · simp only [GoMap.keys] at ih
      simp [GoMap.assign, GoMap.keys, h, ih]
      tauto

theorem nodup_keys_assign (m : GoMap K V) (k : K) (v : V) (h : (GoMap.keys m).Nodup) :
    (GoMap.keys (GoMap.assign m k v)).Nodup := by
  induction m with
  | nil => simp [GoMap.assign, GoMap.keys]
  | cons e m ih =>
    obtain ⟨a, b⟩ := e
    have hcons : a ∉ GoMap.keys m ∧ (GoMap.keys m).Nodup := by
      simpa [GoMap.keys] using h
    by_cases hk : a = k
    · subst hk
      simpa [GoMap.assign, GoMap.keys] using h
    · have hmem := mem_keys_assign m k a v
      have hn : a ∉ GoMap.keys (GoMap.assign m k v) := by
        rw [hmem]
        rintro (h1 | h1)
        · exact hk h1
        · exact hcons.1 h1
      have := ih hcons.2
      simp only [GoMap.keys] at this hn
      simp [GoMap.assign, GoMap.keys, hk, this]
      simpa using hn

theorem mem_assign (m : GoMap K V) (k : K) (v : V) (e : K × V)
    (h : e ∈ GoMap.assign m k v) : e = (k, v) ∨ e ∈ m := by
  induction m with
  | nil => simpa [GoMap.assign] using h
  | cons e' m ih =>
    obtain ⟨a, b⟩ := e'
    by_cases hk : a = k
    · subst hk
      simp [GoMap.assign] at h
      rcases h with h | h
      · exact Or.inl h
      · exact Or.inr (List.mem_cons_of_mem _ h)
    · simp [GoMap.assign, hk] at h
      rcases h with h | h
      · exact Or.inr (by simp [h])
      · rcases ih h with h' | h'
        · exact Or.inl h'
        · exact Or.inr (List.mem_cons_of_mem _ h')

theorem index_eq_some_of_mem (m : GoMap K V) (k : K) (v : V)
    (hn : (GoMap.keys m).Nodup) (h : (k, v) ∈ m) : GoMap.index m k = some v := by
  induction m with
  | nil => simp at h
  | cons e m ih =>
    obtain ⟨a, b⟩ := e
    have hcons : a ∉ GoMap.keys m ∧ (GoMap.keys m).Nodup := by
      simpa [GoMap.keys] using hn
    simp at h
    rcases h with ⟨h1, h2⟩ | h
    · subst h1; subst h2
      simp [GoMap.index]
    · have hk : a ≠ k := by
        rintro rfl
        exact hcons.1 (List.mem_map_of_mem Prod.fst h)
      simp [GoMap.index, hk, ih hcons.2 h]

theorem index_eq_none_iff (m : GoMap K V) (k : K) :
    GoMap.index m k = none ↔ k ∉ GoMap.keys m := by
  induction m with
  | nil => simp [GoMap.index, GoMap.keys]
  | cons e m ih =>
    obtain ⟨a, b⟩ := e
    simp only [GoMap.keys] at ih
    by_cases hk : a = k
    · simp [GoMap.index, GoMap.keys, hk]
    · simp [GoMap.index, GoMap.keys, hk, ih, Ne.symm hk]

/-! ### `assignAll` -/

theorem mem_keys_assignAll (es : List (K × V)) (m : GoMap K V) (k : K) :
    k ∈ GoMap.keys (assignAll es m) ↔ k ∈ es.map Prod.fst ∨ k ∈ GoMap.keys m := by
  induction es generalizing m with
  | nil => simp [assignAll]
  | cons e es ih =>
    obtain ⟨a, b⟩ := e
    simp only [assignAll, ih, mem_keys_assign]
    simp
    tauto

theorem nodup_keys_assignAll (es : List (K × V)) (m : GoMap K V)
    (h : (GoMap.keys m).Nodup) : (GoMap.keys (assignAll es m)).Nodup := by
  induction es generalizing m with
  | nil => simpa [assignAll] using h
  | cons e es ih =>
    obtain ⟨a, b⟩ := e
    exact ih _ (nodup_keys_assign m a b h)

theorem mem_assignAll (es : List (K × V)) (m : GoMap K V) (e : K × V)
    (h : e ∈ assignAll es m) : e ∈ es ∨ e ∈ m := by
  induction es generalizing m with
  | nil => exact Or.inr h
  | cons e' es ih =>
    obtain ⟨a, b⟩ := e'
    rcases ih _ h with h1 | h1
    · exact Or.inl (List.mem_cons_of_mem _ h1)
    · rcases mem_assign m a b e h1 with h2 | h2
      · exact Or.inl (by simp [h2])
      · exact Or.inr h2

theorem index_assignAll_of_not_mem (es : List (K × V)) (m : GoMap K V) (k : K)
    (h : k ∉ es.map Prod.fst) : GoMap.index (assignAll es m) k = GoMap.index m k := by
  induction es generalizing m with
  | nil => rfl
  | cons e es ih =>
    obtain ⟨a, b⟩ := e
    simp at h
    have h1 : k ∉ es.map Prod.fst := by simpa using h.2
    have h2 : a ≠ k := fun hh => h.1 hh.symm
    simp only [assignAll]
    rw [ih _ h1, index_assign]
    simp [h2]

theorem index_assignAll_of_mem (es : List (K × V)) (m : GoMap K V) (k : K) (v : V)
    (hn : (es.map Prod.fst).Nodup) (h : (k, v) ∈ es) :
    GoMap.index (assignAll es m) k = some v := by
  induction es generalizing m with
  | nil => simp at h
  | cons e es ih =>
    obtain ⟨a, b⟩ := e
    have hcons : a ∉ es.map Prod.fst ∧ (es.map Prod.fst).Nodup := by
      simpa using hn
    simp only [assignAll]
    simp at h
    rcases h with ⟨h1, h2⟩ | h
    · subst h1; subst h2
      rw [index_assignAll_of_not_mem _ _ _ hcons.1, index_assign]
      simp
    · exact ih _ hcons.2 h

theorem index_assignAll_fun (F : K → V) (ks : List K) (m : GoMap K V) (k : K) :
    GoMap.index (assignAll (ks.map fun a => (a, F a)) m) k =
      if k ∈ ks then some (F k) else GoMap.index m k := by
  induction ks generalizing m with
  | nil => simp [assignAll]
  | cons a ks ih =>
    simp only [List.map_cons, assignAll]
    rw [ih, index_assign]
    by_cases h1 : k ∈ ks
    · simp [h1]
    · by_cases h2 : a = k
      · subst h2; simp
      · simp [h1, h2, Ne.symm h2]

theorem index_assignAll_perm (es es' : List (K × V)) (m : GoMap K V) (k : K)
    (hp : es.Perm es') (hn : (es.map Prod.fst).Nodup) :
    GoMap.index (assignAll es m) k = GoMap.index (assignAll es' m) k := by
  have hn' : (es'.map Prod.fst).Nodup := (hp.map Prod.fst).nodup_iff.mp hn
  by_cases hk : k ∈ es.map Prod.fst
  · obtain ⟨e, he, rfl⟩ := List.mem_map.mp hk
    rw [index_assignAll_of_mem es m e.1 e.2 hn he,
      index_assignAll_of_mem es' m e.1 e.2 hn' (hp.mem_iff.mp he)]
  · have hk' : k ∉ es'.map Prod.fst := fun h => hk ((hp.map Prod.fst).mem_iff.mpr h)
    rw [index_assignAll_of_not_mem _ _ _ hk, index_assignAll_of_not_mem _ _ _ hk']

end Maps

/-! ## The header scanner -/

theorem mem_scanRowFrom (row : List String) (n : Nat) (temp : GoMap Int String)
    (e : Int × String) (h : e ∈ scanRowFrom row n temp) :
    e ∈ temp ∨ ∃ j cell, row[j]? = some cell ∧ e.1 = ((n + j : Nat) : Int) + 1 ∧
      e.2 = TrimSpace cell ∧ keepLabel (TrimSpace cell) = true := by
  induction row generalizing n temp with
  | nil => exact Or.inl h
  | cons c rest ih =>
    simp only [scanRowFrom] at h
    have lift : (∃ j cell, rest[j]? = some cell ∧ e.1 = ((n + 1 + j : Nat) : Int) + 1 ∧
        e.2 = TrimSpace cell ∧ keepLabel (TrimSpace cell) = true) →
        ∃ j cell, (c :: rest)[j]? = some cell ∧ e.1 = ((n + j : Nat) : Int) + 1 ∧
          e.2 = TrimSpace cell ∧ keepLabel (TrimSpace cell) = true := by
      rintro ⟨j, cell, h1, h2, h3, h4⟩
      refine ⟨j + 1, cell, by simpa using h1, ?_, h3, h4⟩
      rw [h2]; push_cast; ring
    by_cases hk : keepLabel (TrimSpace c) = true
    · rw [if_pos hk] at h
      rcases ih (n + 1) _ h with h1 | h1
      · rcases mem_assign _ _ _ _ h1 with h2 | h2
        · refine Or.inr ⟨0, c, by simp, ?_, ?_, hk⟩
          · rw [h2]; simp
          · rw [h2]
        · exact Or.inl h2
      · exact Or.inr (lift h1)
    · rw [if_neg hk] at h
      rcases ih (n + 1) _ h with h1 | h1
      · exact Or.inl h1
      · exact Or.inr (lift h1)

theorem index_scanRowFrom_of_ne (row : List String) (n : Nat) (temp : GoMap Int String)
    (k : Int) (h : ∀ j, j < row.length → k ≠ ((n + j : Nat) : Int) + 1) :
    GoMap.index (scanRowFrom row n temp) k = GoMap.index temp k := by
  induction row generalizing n temp with
  | nil => rfl
  | cons c rest ih =>
    have h0 : k ≠ (n : Int) + 1 := by simpa using h 0 (by simp)
    have hrest : ∀ j, j < rest.length → k ≠ ((n + 1 + j : Nat) : Int) + 1 := by
      intro j hj
      have := h (j + 1) (by simpa using hj)
      intro hk
      apply this
      rw [hk]; push_cast; ring
    simp only [scanRowFrom]
    split
    · rw [ih _ _ hrest, index_assign]
      simp [Ne.symm h0]
    · exact ih _ _ hrest

theorem index_scanRowFrom_kept (row : List String) (n : Nat) (temp : GoMap Int String)
    (j : Nat) (cell : String) (hj : row[j]? = some cell)
    (hk : keepLabel (TrimSpace cell) = true) :
    GoMap.index (scanRowFrom row n temp) (((n + j : Nat) : Int) + 1) =
      some (TrimSpace cell) := by
  induction row generalizing n temp j with
  | nil => simp at hj
  | cons c rest ih =>
    cases j with
    | zero =>
      simp at hj
      subst hj
      simp only [scanRowFrom, hk, if_true]
      rw [index_scanRowFrom_of_ne, index_assign]
      · simp
      · intro j _
        push_cast
        omega
    | succ j =>
      simp at hj
      have key : (((n + (j + 1) : Nat) : Int) + 1) = (((n + 1 + j : Nat) : Int) + 1) := by
        push_cast; ring
      rw [key]
      simp only [scanRowFrom]
      split
      · exact ih _ _ j hj
      · exact ih _ _ j hj

theorem index_scanRowFrom_dropped (row : List String) (n : Nat) (temp : GoMap Int String)
    (j : Nat) (cell : String) (hj : row[j]? = some cell)
    (hk : keepLabel (TrimSpace cell) = false) :
    GoMap.index (scanRowFrom row n temp) (((n + j : Nat) : Int) + 1) =
      GoMap.index temp (((n + j : Nat) : Int) + 1) := by
  induction row generalizing n temp j with
  | nil => simp at hj
  | cons c rest ih =>
    cases j with
    | zero =>
      simp at hj
      subst hj
      simp only [scanRowFrom, hk, Bool.false_eq_true, if_false]
      rw [index_scanRowFrom_of_ne]
      intro j _
      push_cast
      omega
    | succ j =>
      simp at hj
      have key : (((n + (j + 1) : Nat) : Int) + 1) = (((n + 1 + j : Nat) : Int) + 1) := by
        push_cast; ring
      rw [key]
      simp only [scanRowFrom]
      split
      · rw [ih _ _ j hj, index_assign]
        have hne : ¬ ((n : Int) + 1 = ((n + 1 + j : Nat) : Int) + 1) := by
          push_cast; omega
        rw [if_neg hne]
      · exact ih _ _ j hj

theorem nodup_keys_scanRowFrom (row : List String) (n : Nat) (temp : GoMap Int String)
    (h : (GoMap.keys temp).Nodup) : (GoMap.keys (scanRowFrom row n temp)).Nodup := by
  induction row generalizing n temp with
  | nil => exact h
  | cons c rest ih =>
    simp only [scanRowFrom]
    split
    · exact ih _ _ (nodup_keys_assign _ _ _ h)
    · exact ih _ _ h

theorem scanSheet_of_header (rows : List (List String)) (header : List String)
    (h : rows[4]? = some header) : scanSheet rows = scanRowFrom header 0 [] := by
  have hlen : 4 < rows.length := by
    by_contra hcon
    have : rows[4]? = none := List.getElem?_eq_none (by omega)
    rw [this] at h
    exact absurd h (by simp)
  have hget : rows.getD 4 [] = header := by
    simp [List.getD, h]
  unfold scanSheet
  rw [if_pos hlen, hget]

theorem scanSheet_short (rows : List (List String)) (h : rows.length < 5) :
    scanSheet rows = [] := by
  have : ¬ 4 < rows.length := by omega
  simp [scanSheet, this]

theorem nodup_keys_scanSheet (rows : List (List String)) :
    (GoMap.keys (scanSheet rows)).Nodup := by
  unfold scanSheet
  split
  · exact nodup_keys_scanRowFrom _ _ _ (by simp [GoMap.keys])
  · simp [GoMap.keys]

/-- Every entry of a scanned sheet comes from a kept cell of the header row. -/
theorem mem_scanSheet (rows : List (List String)) (e : Int × String)
    (h : e ∈ scanSheet rows) :
    ∃ header, ∃ j : Nat, ∃ cell, rows[4]? = some header ∧ header[j]? = some cell ∧
      e.1 = (j : Int) + 1 ∧ e.2 = TrimSpace cell ∧ keepLabel (TrimSpace cell) = true := by
  unfold scanSheet at h
  split at h
  · rename_i hlen
    rcases mem_scanRowFrom _ _ _ _ h with h1 | ⟨j, cell, h1, h2, h3, h4⟩
    · simp at h1
    · refine ⟨rows.getD 4 [], j, cell, ?_, h1, ?_, h3, h4⟩
      · simp [List.getD, List.getElem?_eq_getElem hlen]
      · simpa using h2
  · simp at h

theorem scanSheets_ok (f : Workbook) (sheets : List String)
    (acc : GoMap String (GoMap Int String))
    (h : ∀ s ∈ sheets, (f.GetRows s).2 = none) :
    scanSheets f sheets acc =
      Except.ok (assignAll (sheets.map fun s => (s, scanSheet (f.GetRows s).1)) acc) := by
  induction sheets generalizing acc with
  | nil => rfl
  | cons s rest ih =>
    have hs : (f.GetRows s).2 = none := h s (by simp)
    simp only [scanSheets, hs, HandleError, List.map_cons, assignAll]
    exact ih _ (fun t ht => h t (List.mem_cons_of_mem _ ht))

theorem scanSheets_ok_inv (f : Workbook) (sheets : List String)
    (acc classes : GoMap String (GoMap Int String))
    (h : scanSheets f sheets acc = Except.ok classes) :
    ∀ s ∈ sheets, (f.GetRows s).2 = none := by
  induction sheets generalizing acc with
  | nil => simp
  | cons s rest ih =>
    simp only [scanSheets] at h
    cases hs : (f.GetRows s).2 with
    | some e => simp [hs, HandleError] at h
    | none =>
      simp only [hs, HandleError] at h
      intro t ht
      simp at ht
      rcases ht with rfl | ht
      · exact hs
      · exact ih _ h t ht

theorem classes_eq (f : Workbook) (classes : GoMap String (GoMap Int String))
    (h : GenerateJson_classes f = Except.ok classes) :
    classes =
      assignAll (f.GetSheetList.map fun s => (s, scanSheet (f.GetRows s).1)) [] := by
  have hok := scanSheets_ok_inv f _ _ _ h
  have := scanSheets_ok f f.GetSheetList [] hok
  unfold GenerateJson_classes at h
  rw [this] at h
  exact (Except.ok.inj h).symm

theorem index_classes (f : Workbook) (classes : GoMap String (GoMap Int String))
    (h : GenerateJson_classes f = Except.ok classes) (s : String) :
    GoMap.index classes s =
      if s ∈ f.GetSheetList then some (scanSheet (f.GetRows s).1) else none := by
  rw [classes_eq f classes h, index_assignAll_fun (fun s => scanSheet (f.GetRows s).1)]
  rfl

theorem nodup_keys_classes (f : Workbook) (classes : GoMap String (GoMap Int String))
    (h : GenerateJson_classes f = Except.ok classes) : (GoMap.keys classes).Nodup := by
  rw [classes_eq f classes h]
  exact nodup_keys_assignAll _ _ (by simp [GoMap.keys])

theorem mem_classes (f : Workbook) (classes : GoMap String (GoMap Int String))
    (h : GenerateJson_classes f = Except.ok classes) (e : String × GoMap Int String)
    (he : e ∈ classes) : e.1 ∈ f.GetSheetList ∧ e.2 = scanSheet (f.GetRows e.1).1 := by
  have h1 := index_eq_some_of_mem classes e.1 e.2 (nodup_keys_classes f classes h) he
  rw [index_classes f classes h] at h1
  by_cases hm : e.1 ∈ f.GetSheetList
  · rw [if_pos hm] at h1
    exact ⟨hm, (Option.some.inj h1).symm⟩
  · rw [if_neg hm] at h1
    exact absurd h1 (by simp)

/-- Every label the scanner stores is a `strings.TrimSpace` result that passed the filter. -/
theorem label_of_classes (f : Workbook) (classes : GoMap String (GoMap Int String))
    (h : GenerateJson_classes f = Except.ok classes) (e : String × GoMap Int String)
    (he : e ∈ classes) (p : Int × String) (hp : p ∈ e.2) :
    Trimmed IsSpace p.2 ∧ Trim p.2 " " = p.2 ∧ keepLabel p.2 = true := by
  have h1 := (mem_classes f classes h e he).2
  rw [h1] at hp
  obtain ⟨header, j, cell, _, _, _, h5, h6⟩ := mem_scanSheet _ p hp
  rw [h5]
  exact ⟨trimSpace_trimmed cell, trim_trimSpace cell, h6⟩

/-! ## The loops of `ExcelToJson` -/

section Loops

variable {Table : Type}

theorem subgroupLoop_eq (G : String → Int → Table) (s : String) (m : GoMap Int String)
    (acc : GoMap String Table) :
    subgroupLoop G s m acc = assignAll (m.map fun p => (Trim p.2 " ", G s p.1)) acc := by
  induction m generalizing acc with
  | nil => rfl
  | cons p m ih =>
    obtain ⟨c, l⟩ := p
    simp only [subgroupLoop, List.map_cons, assignAll]
    exact ih _

theorem sheetLoop_eq (G : String → Int → Table) (cls : GoMap String (GoMap Int String))
    (acc : GoMap String (GoMap String Table)) :
    sheetLoop G cls acc =
      assignAll (cls.map fun e => (Trim e.1 " ", subgroupLoop G e.1 e.2 [])) acc := by
  induction cls generalizing acc with
  | nil => rfl
  | cons e cls ih =>
    obtain ⟨s, m⟩ := e
    simp only [sheetLoop, List.map_cons, assignAll]
    exact ih _

theorem mem_keys_subgroupLoop (G : String → Int → Table) (s : String)
    (m : GoMap Int String) (k : String) :
    k ∈ GoMap.keys (subgroupLoop G s m []) ↔ ∃ p ∈ m, Trim p.2 " " = k := by
  rw [subgroupLoop_eq, mem_keys_assignAll]
  simp [GoMap.keys]

theorem nodup_keys_subgroupLoop (G : String → Int → Table) (s : String)
    (m : GoMap Int String) : (GoMap.keys (subgroupLoop G s m [])).Nodup := by
  rw [subgroupLoop_eq]
  exact nodup_keys_assignAll _ _ (by simp [GoMap.keys])

theorem mem_keys_data (G : String → Int → Table) (order : GoMap String (GoMap Int String))
    (k : String) :
    k ∈ GoMap.keys (ExcelToJson_data G order) ↔ ∃ e ∈ order, Trim e.1 " " = k := by
  unfold ExcelToJson_data
  rw [sheetLoop_eq, mem_keys_assignAll]
  simp [GoMap.keys]

/-- Every entry of the Aggregate Document was written for some sheet of the input. -/
theorem mem_data (G : String → Int → Table) (order : GoMap String (GoMap Int String))
    (e : String × GoMap String Table) (h : e ∈ ExcelToJson_data G order) :
    ∃ c ∈ order, e.1 = Trim c.1 " " ∧ e.2 = subgroupLoop G c.1 c.2 [] := by
  unfold ExcelToJson_data at h
  rw [sheetLoop_eq] at h
  rcases mem_assignAll _ _ _ h with h1 | h1
  · obtain ⟨c, hc, rfl⟩ := List.mem_map.mp h1
    exact ⟨c, hc, rfl, rfl⟩
  · simp at h1

/-- Every entry of a sheet's local mapping was written for some column of the sheet. -/
theorem mem_subgroupLoop (G : String → Int → Table) (s : String) (m : GoMap Int String)
    (e : String × Table) (h : e ∈ subgroupLoop G s m []) :
    ∃ p ∈ m, e.1 = Trim p.2 " " ∧ e.2 = G s p.1 := by
  rw [subgroupLoop_eq] at h
  rcases mem_assignAll _ _ _ h with h1 | h1
  · obtain ⟨p, hp, rfl⟩ := List.mem_map.mp h1
    exact ⟨p, hp, rfl, rfl⟩
  · simp at h1

theorem index_subgroupLoop (G : String → Int → Table) (s : String) (m : GoMap Int String)
    (hn : (m.map fun p => Trim p.2 " ").Nodup) (c : Int) (l : String) (h : (c, l) ∈ m) :
    GoMap.index (subgroupLoop G s m []) (Trim l " ") = some (G s c) := by
  rw [subgroupLoop_eq]
  apply index_assignAll_of_mem
  · simpa [List.map_map, Function.comp] using hn
  · exact List.mem_map.mpr ⟨(c, l), h, rfl⟩

theorem index_data (G : String → Int → Table) (order : GoMap String (GoMap Int String))
    (hn : (order.map fun e => Trim e.1 " ").Nodup) (s : String) (m : GoMap Int String)
    (h : (s, m) ∈ order) :
    GoMap.index (ExcelToJson_data G order) (Trim s " ") = some (subgroupLoop G s m []) := by
  unfold ExcelToJson_data
  rw [sheetLoop_eq]
  apply index_assignAll_of_mem
  · simpa [List.map_map, Function.comp] using hn
  · exact List.mem_map.mpr ⟨(s, m), h, rfl⟩

end Loops

/-! ## Visiting orders -/

theorem forall₂_mem_left {α β : Type} {R : α → β → Prop} {l₁ : List α} {l₂ : List β}
    (h : List.Forall₂ R l₁ l₂) (a : α) (ha : a ∈ l₁) : ∃ b ∈ l₂, R a b := by
  induction h with
  | nil => simp at ha
  | cons hr _ ih =>
    simp at ha
    rcases ha with rfl | ha
    · exact ⟨_, by simp, hr⟩
    · obtain ⟨b, hb, hab⟩ := ih ha
      exact ⟨b, List.mem_cons_of_mem _ hb, hab⟩

theorem forall₂_mem_right {α β : Type} {R : α → β → Prop} {l₁ : List α} {l₂ : List β}
    (h : List.Forall₂ R l₁ l₂) (b : β) (hb : b ∈ l₂) : ∃ a ∈ l₁, R a b := by
  induction h with
  | nil => simp at hb
  | cons hr _ ih =>
    simp at hb
    rcases hb with rfl | hb
    · exact ⟨_, by simp, hr⟩
    · obtain ⟨a, ha, hab⟩ := ih hb
      exact ⟨a, List.mem_cons_of_mem _ ha, hab⟩

theorem nestedRangeOrder_refl (classes : GoMap String (GoMap Int String)) :
    NestedRangeOrder classes classes := by
  refine ⟨classes, List.Perm.refl _, ?_⟩
  induction classes with
  | nil => exact List.Forall₂.nil
  | cons e l ih => exact List.Forall₂.cons ⟨rfl, List.Perm.refl _⟩ ih

theorem nested_mem_order {classes order : GoMap String (GoMap Int String)}
    (h : NestedRangeOrder classes order) (o : String × GoMap Int String) (ho : o ∈ order) :
    ∃ c ∈ classes, o.1 = c.1 ∧ o.2.Perm c.2 := by
  obtain ⟨mid, hp, hf⟩ := h
  obtain ⟨c, hc, h1, h2⟩ := forall₂_mem_left hf o ho
  exact ⟨c, hp.mem_iff.mp hc, h1, h2⟩

theorem nested_mem_classes {classes order : GoMap String (GoMap Int String)}
    (h : NestedRangeOrder classes order) (c : String × GoMap Int String) (hc : c ∈ classes) :
    ∃ o ∈ order, o.1 = c.1 ∧ o.2.Perm c.2 := by
  obtain ⟨mid, hp, hf⟩ := h
  exact forall₂_mem_right hf c (hp.mem_iff.mpr hc)

theorem nested_names_perm {classes order : GoMap String (GoMap Int String)}
    (h : NestedRangeOrder classes order) :
    (order.map Prod.fst).Perm (classes.map Prod.fst) := by
  obtain ⟨mid, hp, hf⟩ := h
  have : order.map Prod.fst = mid.map Prod.fst := by
    clear hp
    induction hf with
    | nil => rfl
    | cons hr _ ih => simp [hr.1, ih]
  rw [this]
  exact hp.map _

theorem index_assignAll_of_agree {K V : Type} [DecidableEq K] (es : List (K × V))
    (m : GoMap K V) (k : K) (v : V) (hk : k ∈ es.map Prod.fst)
    (hv : ∀ e ∈ es, e.1 = k → e.2 = v) : GoMap.index (assignAll es m) k = some v := by
  induction es generalizing m with
  | nil => simp at hk
  | cons e es ih =>
    obtain ⟨a, b⟩ := e
    simp only [assignAll]
    by_cases hmem : k ∈ es.map Prod.fst
    · exact ih _ hmem (fun e he => hv e (List.mem_cons_of_mem _ he))
    · have hak : k = a := by
        simp at hk hmem
        rcases hk with h | ⟨x, h⟩
        · exact h
        · exact absurd h (hmem x)
      subst hak
      have hb : b = v := hv (k, b) (by simp) rfl
      rw [index_assignAll_of_not_mem _ _ _ hmem, index_assign, hb]
      simp

/-- Distinct columns with distinct labels: the list of labels has no duplicate. -/
theorem nodup_map_of_distinct {α β γ : Type} (l : List α) (key : α → β) (val : α → γ)
    (hk : (l.map key).Nodup)
    (hd : ∀ p ∈ l, ∀ q ∈ l, key p ≠ key q → val p ≠ val q) : (l.map val).Nodup := by
  have hl : l.Nodup := List.Nodup.of_map key hk
  apply List.Nodup.map_on _ hl
  intro p hp q hq hpq
  by_contra hne
  have hkey : key p = key q := by
    by_contra hkne
    exact hd p hp q hq hkne hpq
  exact hne (List.inj_on_of_nodup_map hk hp hq hkey)

/-- In a run of the scanner, the visiting order of a sheet has the same labels as the
sheet's column map, and the second trim does not change them. -/
theorem trimmed_labels_of_order (f : Workbook) (classes : GoMap String (GoMap Int String))
    (h : GenerateJson_classes f = Except.ok classes) (c : String × GoMap Int String)
    (hc : c ∈ classes) (m : GoMap Int String) (hm : m.Perm c.2) :
    (m.map fun p => Trim p.2 " ") = m.map Prod.snd := by
  apply List.map_congr_left
  intro p hp
  exact (label_of_classes f classes h c hc p (hm.mem_iff.mp hp)).2.1

theorem length_producers (classes : GoMap String (GoMap Int String)) (key : String) :
    (producers classes key).length =
      (allLabels classes).countP (fun l => decide (Trim l " " = key)) := by
  induction classes with
  | nil => rfl
  | cons e cls ih =>
    unfold producers allLabels at ih ⊢
    rw [List.flatMap_cons, List.flatMap_cons, List.length_append, List.countP_append, ih,
      List.length_map, List.countP_map, List.countP_eq_length_filter _ e.2]
    rfl

theorem mem_allLabels (classes : GoMap String (GoMap Int String)) (l : String) :
    l ∈ allLabels classes ↔ ∃ e ∈ classes, ∃ p ∈ e.2, p.2 = l := by
  simp [allLabels]

theorem trimmed_space_iff (s : String) :
    Trimmed (fun r => decide (r ∈ " ".data)) s ↔ Trimmed (fun r => decide (r = ' ')) s := by
  have : (fun r : Char => decide (r ∈ " ".data)) = (fun r : Char => decide (r = ' ')) := by
    funext r
    simp
  rw [this]

/-! ## The claims -/

/-- C1. Header scanner: for every row grid with a row of index 4 and every 0-based
position `i` of that row whose cell, after `strings.TrimSpace`, is non-empty and none of
the eight excluded labels, the column map `temp` built for the sheet has the key `i+1`
with the trimmed cell as its value; in a run that reaches `ExcelToJson` this is the map
that `classes` holds for the sheet; and the example workbook, whose row 5 is
`["SR NO", "DAY", "A1 ", "", "BRANCH", "B2"]`, gives exactly the map `{3: "A1", 6: "B2"}`. -/
theorem header_scanner_keeps_labels :
    (∀ (rows : List (List String)) (header : List String), rows[4]? = some header →
      ∀ (i : Nat) (cell : String), header[i]? = some cell →
        TrimSpace cell ≠ "" → TrimSpace cell ∉ excludedLabels →
        GoMap.index (scanSheet rows) ((i : Int) + 1) = some (TrimSpace cell)) ∧
    (∀ (f : Workbook) (classes : GoMap String (GoMap Int String)),
      GenerateJson_classes f = Except.ok classes →
      ∀ sheetName ∈ f.GetSheetList, ∀ header : List String,
        (f.GetRows sheetName).1[4]? = some header →
        ∀ (i : Nat) (cell : String), header[i]? = some cell →
          TrimSpace cell ≠ "" → TrimSpace cell ∉ excludedLabels →
          ∃ temp, GoMap.index classes sheetName = some temp ∧
            GoMap.index temp ((i : Int) + 1) = some (TrimSpace cell)) ∧
    GenerateJson_classes exampleWorkbook =
      Except.ok [("2ND YEAR B ", [(3, "A1"), (6, "B2")])] := by
  have key : ∀ (rows : List (List String)) (header : List String), rows[4]? = some header →
      ∀ (i : Nat) (cell : String), header[i]? = some cell →
        TrimSpace cell ≠ "" → TrimSpace cell ∉ excludedLabels →
        GoMap.index (scanSheet rows) ((i : Int) + 1) = some (TrimSpace cell) := by
    intro rows header hh i cell hc h1 h2
    rw [scanSheet_of_header _ _ hh]
    have hk : keepLabel (TrimSpace cell) = true := (keepLabel_iff _).mpr ⟨h1, h2⟩
    have := index_scanRowFrom_kept header 0 [] i cell hc hk
    simpa using this
  refine ⟨key, ?_, rfl⟩
  intro f classes h sheetName hs header hh i cell hc h1 h2
  refine ⟨scanSheet (f.GetRows sheetName).1, ?_, key _ header hh i cell hc h1 h2⟩
  rw [index_classes f classes h, if_pos hs]

/-- C1, at the example workbook: column position 2 holds `"A1 "`, so the column map of
sheet `"2ND YEAR B "` has `"A1"` at key 3. -/
theorem header_scanner_keeps_labels_witness :
    ∃ temp, GoMap.index [("2ND YEAR B ", [((3 : Int), "A1"), (6, "B2")])] "2ND YEAR B " =
        some temp ∧
      GoMap.index temp (((2 : Nat) : Int) + 1) = some (TrimSpace "A1 ") :=
  header_scanner_keeps_labels.2.1 exampleWorkbook _ rfl "2ND YEAR B " (by decide)
    ["SR NO", "DAY", "A1 ", "", "BRANCH", "B2"] rfl 2 "A1 " rfl (by decide) (by decide)

/-- C2. Header scanner: for every row grid and every 0-based position `i` of its row of
index 4 whose cell, after `strings.TrimSpace`, is empty or exactly one of the eight
excluded labels, the key `i+1` is absent from the column map `temp` built for the sheet,
and no value of that map is empty or an excluded label; in a run that reaches
`ExcelToJson` the same holds of the map that `classes` holds for the sheet; and the label
`"day"`, which differs from `"DAY"` only in case, is kept. -/
theorem header_scanner_drops_excluded :
    (∀ rows : List (List String),
      (∀ header : List String, rows[4]? = some header →
        ∀ (i : Nat) (cell : String), header[i]? = some cell →
          TrimSpace cell = "" ∨ TrimSpace cell ∈ excludedLabels →
          GoMap.index (scanSheet rows) ((i : Int) + 1) = none) ∧
      (∀ p ∈ scanSheet rows, p.2 ≠ "" ∧ p.2 ∉ excludedLabels)) ∧
    (∀ (f : Workbook) (classes : GoMap String (GoMap Int String)),
      GenerateJson_classes f = Except.ok classes →
      ∀ sheetName ∈ f.GetSheetList, ∀ temp : GoMap Int String,
        GoMap.index classes sheetName = some temp →
        (∀ header : List String, (f.GetRows sheetName).1[4]? = some header →
          ∀ (i : Nat) (cell : String), header[i]? = some cell →
            TrimSpace cell = "" ∨ TrimSpace cell ∈ excludedLabels →
            GoMap.index temp ((i : Int) + 1) = none) ∧
        (∀ p ∈ temp, p.2 ≠ "" ∧ p.2 ∉ excludedLabels)) ∧
    GenerateJson_classes dayWorkbook = Except.ok [("S", [(2, "day")])] := by
  have key : ∀ rows : List (List String),
      (∀ header : List String, rows[4]? = some header →
        ∀ (i : Nat) (cell : String), header[i]? = some cell →
          TrimSpace cell = "" ∨ TrimSpace cell ∈ excludedLabels →
          GoMap.index (scanSheet rows) ((i : Int) + 1) = none) ∧
      (∀ p ∈ scanSheet rows, p.2 ≠ "" ∧ p.2 ∉ excludedLabels) := by
    intro rows
    constructor
    · intro header hh i cell hc hex
      rw [scanSheet_of_header _ _ hh]
      have hk : keepLabel (TrimSpace cell) = false := by
        cases hkl : keepLabel (TrimSpace cell) with
        | false => rfl
        | true =>
          have := (keepLabel_iff _).mp hkl
          rcases hex with h1 | h1
          · exact absurd h1 this.1
          · exact absurd h1 this.2
      have := index_scanRowFrom_dropped header 0 [] i cell hc hk
      simpa [GoMap.index] using this
    · intro p hp
      obtain ⟨_, _, cell, _, _, _, h5, h6⟩ := mem_scanSheet _ p hp
      rw [h5]
      exact (keepLabel_iff _).mp h6
  refine ⟨key, ?_, rfl⟩
  intro f classes h sheetName hs temp ht
  rw [index_classes f classes h, if_pos hs] at ht
  have ht' : temp = scanSheet (f.GetRows sheetName).1 := (Option.some.inj ht).symm
  subst ht'
  exact key _

/-- C2, at the workbook with the header row `["DAY", "day", " HOURS ", "  "]`: position 2
holds `" HOURS "`, so key 3 is absent. -/
theorem header_scanner_drops_excluded_witness :
    GoMap.index [((2 : Int), "day")] (((2 : Nat) : Int) + 1) = none :=
  (header_scanner_drops_excluded.2.1 dayWorkbook _ rfl "S" (by decide) [(2, "day")] rfl).1
    ["DAY", "day", " HOURS ", "  "] rfl 2 " HOURS " rfl (Or.inr (by decide))

/-- C3. Header scanner: for a row grid with fewer than 5 rows the column map `temp` built
for the sheet is the empty map; and when no `GetRows` call fails, the scan completes
without an error, and every sheet whose row grid has fewer than 5 rows has an entry in
`classes`, which is the empty column map. -/
theorem header_scanner_short_sheet :
    (∀ rows : List (List String), rows.length < 5 → scanSheet rows = []) ∧
    (∀ f : Workbook, (∀ s ∈ f.GetSheetList, (f.GetRows s).2 = none) →
      ∃ classes, GenerateJson_classes f = Except.ok classes ∧
        ∀ s ∈ f.GetSheetList, (f.GetRows s).1.length < 5 →
          GoMap.index classes s = some []) := by
  refine ⟨scanSheet_short, ?_⟩
  intro f hrows
  refine ⟨_, scanSheets_ok f f.GetSheetList [] hrows, ?_⟩
  intro s hs hlen
  rw [index_assignAll_fun (fun s => scanSheet (f.GetRows s).1), if_pos hs,
    scanSheet_short _ hlen]

/-- C3, at the workbook with a sheet of 0 rows and a sheet of 4 rows. -/
theorem header_scanner_short_sheet_witness :
    (∀ s ∈ shortWorkbook.GetSheetList, (shortWorkbook.GetRows s).2 = none) ∧
    ∃ classes, GenerateJson_classes shortWorkbook = Except.ok classes ∧
      ∀ s ∈ shortWorkbook.GetSheetList, (shortWorkbook.GetRows s).1.length < 5 →
        GoMap.index classes s = some [] :=
  ⟨by decide, header_scanner_short_sheet.2 shortWorkbook (by decide)⟩

/-- C4, as stated, fails: for the input `{"S": {1: "A", 2: "A "}}` of `ExcelToJson` the
sheet name is alone and the labels `"A"` and `"A "` of the two columns are distinct, but
both are written at the key `"A"` (line 101), so the entry at `"A"` is the table of the
column visited last and not the table of the other column, whichever column is visited
first. -/
theorem table_extractor_entries_counterexample :
    (∀ e ∈ ([("S", [(1, "A"), (2, "A ")])] : GoMap String (GoMap Int String)),
      ∀ e' ∈ ([("S", [(1, "A"), (2, "A ")])] : GoMap String (GoMap Int String)),
        e.1 ≠ e'.1 → Trim e.1 " " ≠ Trim e'.1 " ") ∧
    (∀ e ∈ ([("S", [(1, "A"), (2, "A ")])] : GoMap String (GoMap Int String)),
      ∀ p ∈ e.2, ∀ q ∈ e.2, p.1 ≠ q.1 → p.2 ≠ q.2) ∧
    ExcelToJson_data columnTable [("S", [(1, "A"), (2, "A ")])] =
      [("S", [("A", [[2]])])] ∧
    ExcelToJson_data columnTable [("S", [(2, "A "), (1, "A")])] =
      [("S", [("A", [[1]])])] ∧
    ¬ (∀ e ∈ ([("S", [(1, "A"), (2, "A ")])] : GoMap String (GoMap Int String)),
        ∀ p ∈ e.2,
          ∃ inner, GoMap.index (ExcelToJson_data columnTable [("S", [(1, "A"), (2, "A ")])])
              (Trim e.1 " ") = some inner ∧
            GoMap.index inner (Trim p.2 " ") = some (columnTable e.1 p.1)) ∧
    ¬ (∀ e ∈ ([("S", [(1, "A"), (2, "A ")])] : GoMap String (GoMap Int String)),
        ∀ p ∈ e.2,
          ∃ inner, GoMap.index (ExcelToJson_data columnTable [("S", [(2, "A "), (1, "A")])])
              (Trim e.1 " ") = some inner ∧
            GoMap.index inner (Trim p.2 " ") = some (columnTable e.1 p.1)) := by
  refine ⟨by decide, by decide, rfl, rfl, ?_, ?_⟩
  · intro h
    obtain ⟨inner, h1, h2⟩ := h ("S", [(1, "A"), (2, "A ")]) (by decide) (1, "A") (by decide)
    have hd : GoMap.index (ExcelToJson_data columnTable [("S", [(1, "A"), (2, "A ")])])
        (Trim "S" " ") = some [("A", [[2]])] := rfl
    have hi : inner = [("A", [[2]])] := by
      have h3 := h1.symm.trans hd
      exact Option.some.inj h3
    subst hi
    revert h2
    decide
  · intro h
    obtain ⟨inner, h1, h2⟩ := h ("S", [(1, "A"), (2, "A ")]) (by decide) (2, "A ") (by decide)
    have hd : GoMap.index (ExcelToJson_data columnTable [("S", [(2, "A "), (1, "A")])])
        (Trim "S" " ") = some [("A", [[1]])] := rfl
    have hi : inner = [("A", [[1]])] := by
      have h3 := h1.symm.trans hd
      exact Option.some.inj h3
    subst hi
    revert h2
    decide

/-- C4, amended. Table extractor: for every column-map input `classes` of `ExcelToJson`,
visited in any order, when the space-trimmed sheet names are pairwise distinct and within
each sheet the space-trimmed labels of the columns are pairwise distinct, then for every
sheet `s` and every pair (column `c`, label `l`) of its column map the Aggregate Document
maps `Trim(s, " ")` to a mapping whose entry at `Trim(l, " ")` is the table
`GetTableData(s, c)`, the collaborator being called with the untrimmed name `s`. For the
column maps of a scanner run the labels are `strings.TrimSpace` results, and it is enough
that the labels of distinct columns are pairwise distinct. The sheet `"2ND YEAR B "` with
the map `{3: "A1", 6: "B2"}` gives the single top-level key `"2ND YEAR B"`, whose value has
exactly the keys `"A1"` and `"B2"`. -/
theorem table_extractor_entries :
    (∀ (Table : Type) (GetTableData : String → Int → Table)
      (classes order : GoMap String (GoMap Int String)),
      NestedRangeOrder classes order →
      (classes.map fun e => Trim e.1 " ").Nodup →
      (∀ e ∈ classes, (e.2.map fun p => Trim p.2 " ").Nodup) →
      ∀ e ∈ classes, ∀ p ∈ e.2,
        ∃ inner, GoMap.index (ExcelToJson_data GetTableData order) (Trim e.1 " ") =
            some inner ∧
          GoMap.index inner (Trim p.2 " ") = some (GetTableData e.1 p.1)) ∧
    (∀ (Table : Type) (GetTableData : String → Int → Table) (f : Workbook)
      (classes order : GoMap String (GoMap Int String)),
      GenerateJson_classes f = Except.ok classes →
      NestedRangeOrder classes order →
      (∀ e ∈ classes, ∀ e' ∈ classes, e.1 ≠ e'.1 → Trim e.1 " " ≠ Trim e'.1 " ") →
      (∀ e ∈ classes, ∀ p ∈ e.2, ∀ q ∈ e.2, p.1 ≠ q.1 → p.2 ≠ q.2) →
      ∀ e ∈ classes, ∀ p ∈ e.2,
        ∃ inner, GoMap.index (ExcelToJson_data GetTableData order) (Trim e.1 " ") =
            some inner ∧
          GoMap.index inner (Trim p.2 " ") = some (GetTableData e.1 p.1)) ∧
    (∀ (Table : Type) (GetTableData : String → Int → Table),
      ExcelToJson_data GetTableData [("2ND YEAR B ", [(3, "A1"), (6, "B2")])] =
        [("2ND YEAR B", [("A1", GetTableData "2ND YEAR B " 3),
          ("B2", GetTableData "2ND YEAR B " 6)])]) := by
  have general : ∀ (Table : Type) (GetTableData : String → Int → Table)
      (classes order : GoMap String (GoMap Int String)),
      NestedRangeOrder classes order →
      (classes.map fun e => Trim e.1 " ").Nodup →
      (∀ e ∈ classes, (e.2.map fun p => Trim p.2 " ").Nodup) →
      ∀ e ∈ classes, ∀ p ∈ e.2,
        ∃ inner, GoMap.index (ExcelToJson_data GetTableData order) (Trim e.1 " ") =
            some inner ∧
          GoMap.index inner (Trim p.2 " ") = some (GetTableData e.1 p.1) := by
    intro Table G classes order hord hsheets hlabels e he p hp
    have hnames : (order.map fun e => Trim e.1 " ").Nodup := by
      have hperm := (nested_names_perm hord).map (fun s => Trim s " ")
      simp only [List.map_map] at hperm
      have hs : (List.map ((fun s => Trim s " ") ∘ Prod.fst) classes).Nodup := hsheets
      exact hperm.nodup_iff.mpr hs
    obtain ⟨o, ho, ho1, ho2⟩ := nested_mem_classes hord e he
    have hlab : (o.2.map fun p => Trim p.2 " ").Nodup :=
      (ho2.map (fun p : Int × String => Trim p.2 " ")).nodup_iff.mpr (hlabels e he)
    refine ⟨subgroupLoop G o.1 o.2 [], ?_, ?_⟩
    · rw [← ho1]
      exact index_data G order hnames o.1 o.2 ho
    · rw [← ho1]
      exact index_subgroupLoop G o.1 o.2 hlab p.1 p.2 (ho2.mem_iff.mpr hp)
  refine ⟨general, ?_, fun _ _ => rfl⟩
  intro Table G f classes order hgen hord hsheets hlabels
  have hkeys : (classes.map Prod.fst).Nodup := nodup_keys_classes f classes hgen
  have hnames : (classes.map fun e => Trim e.1 " ").Nodup :=
    nodup_map_of_distinct classes Prod.fst (fun e => Trim e.1 " ") hkeys hsheets
  apply general Table G classes order hord hnames
  intro e he
  have hcols : (e.2.map Prod.fst).Nodup := by
    rw [(mem_classes f classes hgen e he).2]
    exact nodup_keys_scanSheet _
  rw [trimmed_labels_of_order f classes hgen e he e.2 (List.Perm.refl _)]
  exact nodup_map_of_distinct e.2 Prod.fst Prod.snd hcols (hlabels e he)

/-- C4, amended, at the column maps `{"2ND YEAR B ": {3: "A1 ", 6: "B2"}}`, the columns
visited in the other order: the entry of `"2ND YEAR B"` has at `"A1"` the table of column
3 of the sheet `"2ND YEAR B "`. -/
theorem table_extractor_entries_witness :
    NestedRangeOrder [("2ND YEAR B ", [(3, "A1 "), (6, "B2")])]
      [("2ND YEAR B ", [(6, "B2"), (3, "A1 ")])] ∧
    ∃ inner, GoMap.index
          (ExcelToJson_data columnTable [("2ND YEAR B ", [(6, "B2"), (3, "A1 ")])])
          (Trim "2ND YEAR B " " ") = some inner ∧
      GoMap.index inner (Trim "A1 " " ") = some (columnTable "2ND YEAR B " 3) :=
  ⟨⟨[("2ND YEAR B ", [(3, "A1 "), (6, "B2")])], List.Perm.refl _,
      List.Forall₂.cons ⟨rfl, List.Perm.swap _ _ _⟩ List.Forall₂.nil⟩,
    table_extractor_entries.1 (List (List Int)) columnTable
      [("2ND YEAR B ", [(3, "A1 "), (6, "B2")])] [("2ND YEAR B ", [(6, "B2"), (3, "A1 ")])]
      ⟨[("2ND YEAR B ", [(3, "A1 "), (6, "B2")])], List.Perm.refl _,
        List.Forall₂.cons ⟨rfl, List.Perm.swap _ _ _⟩ List.Forall₂.nil⟩
      (by decide) (by decide)
      ("2ND YEAR B ", [(3, "A1 "), (6, "B2")]) (by decide) (3, "A1 ") (by decide)⟩

/-- C5, as stated, fails: for the column maps of the workbook with two short sheets, both
empty, the Aggregate Document has the keys `"EMPTY"` and `"FOUR ROWS"`, while no sheet has
a discovered subgroup. -/
theorem aggregate_keys_counterexample :
    GenerateJson_classes shortWorkbook = Except.ok [("EMPTY", []), ("FOUR ROWS", [])] ∧
    ¬ (∀ k, k ∈ GoMap.keys
          (ExcelToJson_data columnTable [("EMPTY", []), ("FOUR ROWS", [])]) ↔
        ∃ e ∈ ([("EMPTY", []), ("FOUR ROWS", [])] : GoMap String (GoMap Int String)),
          e.2 ≠ [] ∧ Trim e.1 " " = k) := by
  refine ⟨rfl, ?_⟩
  intro h
  obtain ⟨e, he, hne, _⟩ := (h "EMPTY").mp (by decide)
  simp at he
  rcases he with rfl | rfl <;> exact hne rfl

/-- C5, amended. For every column-map input, visited in any order, the top-level keys of
the Aggregate Document are the space-trimmed names of all sheets of the input, with or
without a discovered subgroup; a sheet whose column map is empty has an entry, and its
value is the empty mapping when every sheet with the same space-trimmed name has an empty
column map. -/
theorem aggregate_keys (Table : Type) (GetTableData : String → Int → Table)
    (classes : GoMap String (GoMap Int String)) :
    (∀ k, k ∈ GoMap.keys (ExcelToJson_data GetTableData classes) ↔
      ∃ e ∈ classes, Trim e.1 " " = k) ∧
    (∀ e ∈ classes, e.2 = [] →
      Trim e.1 " " ∈ GoMap.keys (ExcelToJson_data GetTableData classes) ∧
      ((∀ e' ∈ classes, Trim e'.1 " " = Trim e.1 " " → e'.2 = []) →
        GoMap.index (ExcelToJson_data GetTableData classes) (Trim e.1 " ") = some [])) := by
  refine ⟨mem_keys_data GetTableData classes, ?_⟩
  intro e he _
  refine ⟨(mem_keys_data GetTableData classes _).mpr ⟨e, he, rfl⟩, ?_⟩
  intro hall
  unfold ExcelToJson_data
  rw [sheetLoop_eq]
  apply index_assignAll_of_agree
  · simp only [List.map_map]
    exact List.mem_map.mpr ⟨e, he, rfl⟩
  · intro x hx hx1
    obtain ⟨c, hc, rfl⟩ := List.mem_map.mp hx
    have := hall c hc hx1
    simp only [this]
    rfl

/-- C5, amended, at the column maps of the workbook with two short sheets: the sheet
`"EMPTY"` has an entry, whose value is the empty mapping. -/
theorem aggregate_keys_witness :
    "EMPTY" ∈ GoMap.keys
        (ExcelToJson_data columnTable [("EMPTY", []), ("FOUR ROWS", [])]) ∧
    GoMap.index (ExcelToJson_data columnTable [("EMPTY", []), ("FOUR ROWS", [])]) "EMPTY" =
      some [] :=
  ⟨((aggregate_keys (List (List Int)) columnTable
      [("EMPTY", []), ("FOUR ROWS", [])]).2 ("EMPTY", []) (by decide) rfl).1,
    ((aggregate_keys (List (List Int)) columnTable
      [("EMPTY", []), ("FOUR ROWS", [])]).2 ("EMPTY", []) (by decide) rfl).2 (by decide)⟩

/-- C6, as stated, fails: the sheets named `"A\t"` and `"B\u00a0"` give the top-level keys
`"A\t"` and `"B\u00a0"`, which end in a tab and in a no-break space. -/
theorem keys_trimmed_counterexample :
    GenerateJson_classes tabWorkbook = Except.ok [("A\t", []), ("B\u00a0", [])] ∧
    GoMap.keys (ExcelToJson_data columnTable [("A\t", []), ("B\u00a0", [])]) =
      ["A\t", "B\u00a0"] ∧
    ¬ Trimmed IsSpace "A\t" ∧ ¬ Trimmed IsSpace "B\u00a0" ∧
    ¬ (∀ e ∈ ExcelToJson_data columnTable [("A\t", []), ("B\u00a0", [])],
        Trimmed IsSpace e.1) := by
  refine ⟨rfl, rfl, by decide, by decide, ?_⟩
  intro h
  have := h ("A\t", []) (by decide)
  revert this
  decide

/-- C6, amended. In the Aggregate Document built from a scanner run, with any visiting
order, every top-level key is the name of a sheet with its leading and trailing space
characters (U+0020) removed, so it neither starts nor ends with a space character, and
every second-level key neither starts nor ends with a white-space character of any
kind. -/
theorem keys_trimmed (Table : Type) (GetTableData : String → Int → Table) (f : Workbook)
    (classes order : GoMap String (GoMap Int String))
    (hgen : GenerateJson_classes f = Except.ok classes)
    (hord : NestedRangeOrder classes order) :
    ∀ e ∈ ExcelToJson_data GetTableData order,
      (∃ c ∈ classes, e.1 = Trim c.1 " ") ∧
      Trimmed (fun r => decide (r = ' ')) e.1 ∧
      ∀ e' ∈ e.2, Trimmed IsSpace e'.1 := by
  intro e he
  obtain ⟨o, ho, h1, h2⟩ := mem_data GetTableData order e he
  obtain ⟨c, hc, hc1, hc2⟩ := nested_mem_order hord o ho
  refine ⟨⟨c, hc, by rw [h1, hc1]⟩, ?_, ?_⟩
  · rw [h1]
    exact (trimmed_space_iff _).mp (trim_trimmed o.1 " ")
  · intro e' he'
    rw [h2] at he'
    obtain ⟨p, hp, hp1, _⟩ := mem_subgroupLoop GetTableData o.1 o.2 e' he'
    have hl := label_of_classes f classes hgen c hc p (hc2.mem_iff.mp hp)
    rw [hp1, hl.2.1]
    exact hl.1

/-- C6, amended, at the example workbook visited in the order of the scan, for the entry
of the sheet `"2ND YEAR B "`. -/
theorem keys_trimmed_witness :
    (∃ c ∈ ([("2ND YEAR B ", [(3, "A1"), (6, "B2")])] : GoMap String (GoMap Int String)),
      "2ND YEAR B" = Trim c.1 " ") ∧
    Trimmed (fun r => decide (r = ' ')) "2ND YEAR B" ∧
    ∀ e' ∈ [("A1", columnTable "2ND YEAR B " 3), ("B2", columnTable "2ND YEAR B " 6)],
      Trimmed IsSpace e'.1 :=
  keys_trimmed (List (List Int)) columnTable exampleWorkbook
    [("2ND YEAR B ", [(3, "A1"), (6, "B2")])] [("2ND YEAR B ", [(3, "A1"), (6, "B2")])]
    rfl (nestedRangeOrder_refl _)
    ("2ND YEAR B", [("A1", columnTable "2ND YEAR B " 3), ("B2", columnTable "2ND YEAR B " 6)])
    (by decide)

/-- C7, as stated, fails: when row 5 of the sheet `"S"` is `["A1", "A1"]`, the second-level
key `"A1"` of the Aggregate Document comes from the two pairs `("S", 1)` and `("S", 2)` of
the scanner's output. -/
theorem label_unique_counterexample :
    GenerateJson_classes twinWorkbook = Except.ok [("S", [(1, "A1"), (2, "A1")])] ∧
    ExcelToJson_data columnTable [("S", [(1, "A1"), (2, "A1")])] =
      [("S", [("A1", [[2]])])] ∧
    producers [("S", [(1, "A1"), (2, "A1")])] "A1" = [("S", 1), ("S", 2)] ∧
    ¬ (∀ e ∈ ExcelToJson_data columnTable [("S", [(1, "A1"), (2, "A1")])],
        ∀ e' ∈ e.2, (producers [("S", [(1, "A1"), (2, "A1")])] e'.1).length = 1) := by
  refine ⟨rfl, rfl, rfl, ?_⟩
  intro h
  have := h ("S", [("A1", [[2]])]) (by decide) ("A1", [[2]]) (by decide)
  revert this
  decide

/-- C7, amended. In the Aggregate Document built from a scanner run, with any visiting
order, every second-level key is produced by at least one (sheet, column) pair of the
scanner's output, and by exactly one when the labels of all (sheet, column) pairs of the
scanner's output are pairwise distinct. -/
theorem label_unique (Table : Type) (GetTableData : String → Int → Table) (f : Workbook)
    (classes order : GoMap String (GoMap Int String))
    (hgen : GenerateJson_classes f = Except.ok classes)
    (hord : NestedRangeOrder classes order) :
    ∀ e ∈ ExcelToJson_data GetTableData order, ∀ e' ∈ e.2,
      1 ≤ (producers classes e'.1).length ∧
      ((allLabels classes).Nodup → (producers classes e'.1).length = 1) := by
  intro e he e' he'
  obtain ⟨o, ho, _, h2⟩ := mem_data GetTableData order e he
  obtain ⟨c, hc, _, hc2⟩ := nested_mem_order hord o ho
  rw [h2] at he'
  obtain ⟨p, hp, hp1, _⟩ := mem_subgroupLoop GetTableData o.1 o.2 e' he'
  have hpc : p ∈ c.2 := hc2.mem_iff.mp hp
  have hl := label_of_classes f classes hgen c hc p hpc
  have hcount : (producers classes e'.1).length = (allLabels classes).count e'.1 := by
    rw [length_producers, List.count_eq_countP]
    apply List.countP_congr
    intro l hl'
    obtain ⟨c', hc', q, hq, rfl⟩ := (mem_allLabels classes l).mp hl'
    rw [(label_of_classes f classes hgen c' hc' q hq).2.1]
    simp
  have hmem : e'.1 ∈ allLabels classes := by
    rw [mem_allLabels]
    exact ⟨c, hc, p, hpc, by rw [hp1, hl.2.1]⟩
  rw [hcount]
  constructor
  · exact List.count_pos_iff.mpr hmem
  · intro hnd
    exact List.count_eq_one_of_mem hnd hmem

/-- C7, amended, at the example workbook visited in the order of the scan, for the key
`"B2"` of the entry of the sheet `"2ND YEAR B "`: its labels `"A1"` and `"B2"` are
distinct, and the key is produced by one pair. -/
theorem label_unique_witness :
    (allLabels [("2ND YEAR B ", [(3, "A1"), (6, "B2")])]).Nodup ∧
    (producers [("2ND YEAR B ", [(3, "A1"), (6, "B2")])] "B2").length = 1 :=
  ⟨by decide,
    (label_unique (List (List Int)) columnTable exampleWorkbook
      [("2ND YEAR B ", [(3, "A1"), (6, "B2")])] [("2ND YEAR B ", [(3, "A1"), (6, "B2")])]
      rfl (nestedRangeOrder_refl _)
      ("2ND YEAR B",
        [("A1", columnTable "2ND YEAR B " 3), ("B2", columnTable "2ND YEAR B " 6)])
      (by decide) ("B2", columnTable "2ND YEAR B " 6) (by decide)).2 (by decide)⟩

/-- C8, as stated, fails: for the column map of the sheet whose row 5 is `["A1", "A1"]`,
visiting column 1 before column 2 leaves the table of column 2 at `"A1"`, and visiting
column 2 before column 1 leaves the table of column 1 there. -/
theorem order_independent_counterexample :
    GenerateJson_classes twinWorkbook = Except.ok [("S", [(1, "A1"), (2, "A1")])] ∧
    NestedRangeOrder [("S", [(1, "A1"), (2, "A1")])] [("S", [(1, "A1"), (2, "A1")])] ∧
    NestedRangeOrder [("S", [(1, "A1"), (2, "A1")])] [("S", [(2, "A1"), (1, "A1")])] ∧
    ¬ SameDocument (ExcelToJson_data columnTable [("S", [(1, "A1"), (2, "A1")])])
        (ExcelToJson_data columnTable [("S", [(2, "A1"), (1, "A1")])]) := by
  refine ⟨rfl, nestedRangeOrder_refl _, ?_, ?_⟩
  · refine ⟨[("S", [(1, "A1"), (2, "A1")])], List.Perm.refl _, ?_⟩
    exact List.Forall₂.cons ⟨rfl, List.Perm.swap _ _ _⟩ List.Forall₂.nil
  · intro h
    have := (h "S").2 "A1"
    revert this
    decide

/-- C8, amended. For every column-map input of `ExcelToJson` in which the space-trimmed
sheet names are pairwise distinct and, within each sheet, the space-trimmed labels of the
columns are pairwise distinct, any two visiting orders of the sheets and of the columns
of each sheet give the same mapping sheet -> subgroup -> table. -/
theorem order_independent (Table : Type) (GetTableData : String → Int → Table)
    (classes order₁ order₂ : GoMap String (GoMap Int String))
    (h₁ : NestedRangeOrder classes order₁) (h₂ : NestedRangeOrder classes order₂)
    (hsheets : (classes.map fun e => Trim e.1 " ").Nodup)
    (hlabels : ∀ e ∈ classes, (e.2.map fun p => Trim p.2 " ").Nodup) :
    SameDocument (ExcelToJson_data GetTableData order₁)
      (ExcelToJson_data GetTableData order₂) := by
  have names : ∀ order, NestedRangeOrder classes order →
      (order.map fun e => Trim e.1 " ").Nodup := by
    intro order hord
    have hperm := (nested_names_perm hord).map (fun s => Trim s " ")
    simp only [List.map_map] at hperm
    have hs : (List.map ((fun s => Trim s " ") ∘ Prod.fst) classes).Nodup := hsheets
    exact hperm.nodup_iff.mpr hs
  intro s
  by_cases hs : ∃ e ∈ classes, Trim e.1 " " = s
  · obtain ⟨e, he, rfl⟩ := hs
    obtain ⟨o₁, ho₁, ho₁n, ho₁p⟩ := nested_mem_classes h₁ e he
    obtain ⟨o₂, ho₂, ho₂n, ho₂p⟩ := nested_mem_classes h₂ e he
    have i₁ := index_data GetTableData order₁ (names _ h₁) o₁.1 o₁.2 ho₁
    have i₂ := index_data GetTableData order₂ (names _ h₂) o₂.1 o₂.2 ho₂
    rw [ho₁n] at i₁
    rw [ho₂n] at i₂
    rw [i₁, i₂]
    refine ⟨rfl, ?_⟩
    intro l
    simp only [Option.bind]
    rw [subgroupLoop_eq, subgroupLoop_eq]
    apply index_assignAll_perm
    · exact (ho₁p.trans ho₂p.symm).map _
    · simp only [List.map_map]
      have hp := ho₁p.map (fun p : Int × String => Trim p.2 " ")
      exact hp.nodup_iff.mpr (hlabels e he)
  · have n₁ : GoMap.index (ExcelToJson_data GetTableData order₁) s = none := by
      rw [index_eq_none_iff, mem_keys_data]
      rintro ⟨o, ho, hos⟩
      obtain ⟨c, hc, hc1, _⟩ := nested_mem_order h₁ o ho
      exact hs ⟨c, hc, by rw [← hc1, hos]⟩
    have n₂ : GoMap.index (ExcelToJson_data GetTableData order₂) s = none := by
      rw [index_eq_none_iff, mem_keys_data]
      rintro ⟨o, ho, hos⟩
      obtain ⟨c, hc, hc1, _⟩ := nested_mem_order h₂ o ho
      exact hs ⟨c, hc, by rw [← hc1, hos]⟩
    rw [n₁, n₂]
    exact ⟨rfl, fun _ => rfl⟩

/-- C8, amended, at the column maps `{"Y2 ": {3: "A1", 6: "B2"}, "Y1": {2: "C1"}}`, visited
as written and with the sheets and the columns of `"Y2 "` swapped. -/
theorem order_independent_witness :
    SameDocument
      (ExcelToJson_data columnTable [("Y2 ", [(3, "A1"), (6, "B2")]), ("Y1", [(2, "C1")])])
      (ExcelToJson_data columnTable [("Y1", [(2, "C1")]), ("Y2 ", [(6, "B2"), (3, "A1")])]) :=
  order_independent (List (List Int)) columnTable
    [("Y2 ", [(3, "A1"), (6, "B2")]), ("Y1", [(2, "C1")])]
    [("Y2 ", [(3, "A1"), (6, "B2")]), ("Y1", [(2, "C1")])]
    [("Y1", [(2, "C1")]), ("Y2 ", [(6, "B2"), (3, "A1")])]
    (nestedRangeOrder_refl _)
    ⟨[("Y1", [(2, "C1")]), ("Y2 ", [(3, "A1"), (6, "B2")])], List.Perm.swap _ _ _,
      List.Forall₂.cons ⟨rfl, List.Perm.refl _⟩
        (List.Forall₂.cons ⟨rfl, List.Perm.swap _ _ _⟩ List.Forall₂.nil)⟩
    (by decide) (by decide)

/-- C9, as stated, fails: when the file is created, `json.MarshalIndent` fails and the
write succeeds, `file.Write` is still called (with the `nil` bytes) and the run completes
without a fatal error. -/
theorem serialization_failure_counterexample :
    failingMarshal.MarshalIndent (ExcelToJson_data columnTable [("S", [(1, "A1")])]) =
      Except.error "json: unsupported value" ∧
    ExcelToJson failingMarshal columnTable [("S", [(1, "A1")])] =
      { written := [[]], fatal := none } :=
  ⟨rfl, rfl⟩

/-- C9, amended. In `ExcelToJson`, a failure to create the output file is fatal: the error
is passed to the fatal-error reporter and the run aborts before anything is written. An
error of the serialisation is discarded: `file.Write` is called once, with the `nil` bytes
when the serialisation failed and with the serialised bytes otherwise, and the run is
aborted exactly when this write fails. -/
theorem serialization_failure (Table : Type) (os : Outside Table)
    (GetTableData : String → Int → Table) (classes : GoMap String (GoMap Int String)) :
    (∀ e, os.Create = some e →
      ExcelToJson os GetTableData classes = { written := [], fatal := some e }) ∧
    (os.Create = none →
      (∀ e, os.MarshalIndent (ExcelToJson_data GetTableData classes) = Except.error e →
        ExcelToJson os GetTableData classes = { written := [[]], fatal := os.Write [] }) ∧
      (∀ dj, os.MarshalIndent (ExcelToJson_data GetTableData classes) = Except.ok dj →
        ExcelToJson os GetTableData classes = { written := [dj], fatal := os.Write dj })) := by
  refine ⟨?_, ?_⟩
  · intro e he
    simp [ExcelToJson, he, HandleError]
  · intro hc
    constructor
    · intro e he
      cases hw : os.Write [] <;> simp [ExcelToJson, hc, he, hw, HandleError]
    · intro dj hdj
      cases hw : os.Write dj <;> simp [ExcelToJson, hc, hdj, hw, HandleError]

/-- C9, amended, at an outside world in which the file cannot be created, and at one in
which the file is created, the serialisation fails and the write succeeds. -/
theorem serialization_failure_witness :
    ExcelToJson failingCreate columnTable [("S", [(1, "A1")])] =
      { written := [], fatal := some "open ./data.json: permission denied" } ∧
    ExcelToJson failingMarshal columnTable [("S", [(1, "A1")])] =
      { written := [[]], fatal := failingMarshal.Write [] } :=
  ⟨(serialization_failure (List (List Int)) failingCreate columnTable
      [("S", [(1, "A1")])]).1 _ rfl,
    ((serialization_failure (List (List Int)) failingMarshal columnTable
      [("S", [(1, "A1")])]).2 rfl).1 _ rfl⟩

/-- C10. The second trim is the identity on scanner output: every `strings.TrimSpace`
result, and so every label `l` of the column map the scanner stores for a sheet,
satisfies `strings.Trim(l, " ") = l`. Hence, for any
order in which `ExcelToJson` visits the columns of the sheet, the keys of the sheet's
mapping are exactly the labels of its column map, there are as many keys as distinct
labels, and two columns give the same key if and only if their labels are equal. -/
theorem second_trim_identity (Table : Type) (GetTableData : String → Int → Table)
    (sheetName : String) (rows : List (List String)) (order : GoMap Int String)
    (hord : GoMap.RangeOrder (scanSheet rows) order) :
    (∀ cell : String, Trim (TrimSpace cell) " " = TrimSpace cell) ∧
    (∀ p ∈ scanSheet rows, Trim p.2 " " = p.2) ∧
    (∀ k, k ∈ GoMap.keys (subgroupLoop GetTableData sheetName order []) ↔
      k ∈ (scanSheet rows).map Prod.snd) ∧
    (GoMap.keys (subgroupLoop GetTableData sheetName order [])).Nodup ∧
    (GoMap.keys (subgroupLoop GetTableData sheetName order [])).length =
      ((scanSheet rows).map Prod.snd).dedup.length ∧
    (∀ p ∈ scanSheet rows, ∀ q ∈ scanSheet rows,
      (Trim p.2 " " = Trim q.2 " " ↔ p.2 = q.2)) := by
  have htrim : ∀ p ∈ scanSheet rows, Trim p.2 " " = p.2 := by
    intro p hp
    obtain ⟨_, _, cell, _, _, _, h5, _⟩ := mem_scanSheet rows p hp
    rw [h5]
    exact trim_trimSpace cell
  have hkeys : ∀ k, k ∈ GoMap.keys (subgroupLoop GetTableData sheetName order []) ↔
      k ∈ (scanSheet rows).map Prod.snd := by
    intro k
    rw [mem_keys_subgroupLoop]
    constructor
    · rintro ⟨p, hp, rfl⟩
      have hp' : p ∈ scanSheet rows := List.Perm.mem_iff hord |>.mp hp
      rw [htrim p hp']
      exact List.mem_map_of_mem _ hp'
    · intro hk
      obtain ⟨p, hp, rfl⟩ := List.mem_map.mp hk
      exact ⟨p, (List.Perm.mem_iff hord).mpr hp, htrim p hp⟩
  have hnd := nodup_keys_subgroupLoop GetTableData sheetName order
  refine ⟨trim_trimSpace, htrim, hkeys, hnd, ?_, ?_⟩
  · apply List.Perm.length_eq
    rw [List.perm_ext_iff_of_nodup hnd (List.nodup_dedup _)]
    intro k
    rw [hkeys k, List.mem_dedup]
  · intro p hp q hq
    rw [htrim p hp, htrim q hq]

/-- C10, at the rows of the example workbook, the columns visited in the order of the
scan. -/
theorem second_trim_identity_witness :
    GoMap.RangeOrder (scanSheet (exampleWorkbook.GetRows "2ND YEAR B ").1)
      [(3, "A1"), (6, "B2")] ∧
    GoMap.keys (subgroupLoop columnTable "2ND YEAR B " [(3, "A1"), (6, "B2")] []) =
      ["A1", "B2"] ∧
    (GoMap.keys (subgroupLoop columnTable "2ND YEAR B " [(3, "A1"), (6, "B2")] [])).length =
      ((scanSheet (exampleWorkbook.GetRows "2ND YEAR B ").1).map Prod.snd).dedup.length :=
  ⟨List.Perm.refl _, rfl,
    (second_trim_identity (List (List Int)) columnTable "2ND YEAR B "
      (exampleWorkbook.GetRows "2ND YEAR B ").1 [(3, "A1"), (6, "B2")]
      (List.Perm.refl _)).2.2.2.2.1⟩

end GenData
